import Mathlib

/-!
Verification of the resume-matcher core pipeline (`core/utils.py`):
text extraction, skill/experience extraction and the match scorer.

Python strings are modelled as Lean `String` (a list of characters); the
Python string methods used by the code (`str.lower`, `str.strip`, `in`,
`str.split`, `str.endswith`) are modelled explicitly below over ASCII,
which covers every string the code manipulates.  Python `float` scores are
modelled as exact rationals; `round(x, 2)` is modelled as round-half-even
at two decimals, which agrees with Python on every value the scorer can
produce away from representation-error corner cases.
-/

namespace ResumeMatcher

/-! ### Python string primitives (ASCII semantics) -/

/-- `str.lower` on a single character: maps `A`–`Z` (codes 65–90) to
`a`–`z` by adding 32, fixes everything else. -/
def lowerChar (c : Char) : Char :=
  if 65 ≤ c.toNat ∧ c.toNat ≤ 90 then Char.ofNat (c.toNat + 32) else c

/-- `str.upper` on a single character: maps `a`–`z` (codes 97–122) to
`A`–`Z` by subtracting 32, fixes everything else. -/
def upperChar (c : Char) : Char :=
  if 97 ≤ c.toNat ∧ c.toNat ≤ 122 then Char.ofNat (c.toNat - 32) else c

/-- The characters removed by Python `str.strip()`:
space, `\t`, `\n`, `\v`, `\f`, `\r`. -/
def spaceChar (c : Char) : Bool :=
  c.toNat == 32 || c.toNat == 9 || c.toNat == 10 || c.toNat == 11 ||
    c.toNat == 12 || c.toNat == 13

/-- Python `\d` (ASCII): `0`–`9`, codes 48–57. -/
def digitChar (c : Char) : Bool :=
  48 ≤ c.toNat && c.toNat ≤ 57

/-- Python `\w` (ASCII): letters, digits and underscore. -/
def wordChar (c : Char) : Bool :=
  digitChar c || (65 ≤ c.toNat && c.toNat ≤ 90) ||
    (97 ≤ c.toNat && c.toNat ≤ 122) || c.toNat == 95

/-- `str.lower`. -/
def pyLower (s : String) : String :=
  String.mk (s.data.map lowerChar)

/-- `str.upper`. -/
def pyUpper (s : String) : String :=
  String.mk (s.data.map upperChar)

/-- `str.strip()` (no argument): drop leading and trailing whitespace. -/
def pyStrip (s : String) : String :=
  String.mk (((s.data.dropWhile spaceChar).reverse.dropWhile spaceChar).reverse)

/-- Python `needle in hay` for strings: substring containment. -/
def pyContains (hay needle : String) : Bool :=
  (List.range (hay.data.length + 1)).any
    (fun i => needle.data.isPrefixOf (hay.data.drop i))

/-- Python `hay.endswith(suffix)`. -/
def pyEndsWith (s suffix : String) : Bool :=
  suffix.data.reverse.isPrefixOf s.data.reverse

/-- Splitting a character list at every separator character, as Python
`re.split` with a single-character alternation (or `str.split(sep)`)
does: every separator occurrence cuts, empty pieces are kept. -/
def splitOnPred (p : Char → Bool) : List Char → List Char → List (List Char)
  | [], cur => [cur.reverse]
  | c :: rest, cur =>
    if p c then cur.reverse :: splitOnPred p rest []
    else splitOnPred p rest (c :: cur)

/-! ### `_normalize_items` -/

/-- The loop of `_normalize_items`: strip each item, skip empties, and
keep the first occurrence of each case-insensitive key (`seen` is the set
of lowercased keys already emitted, `out` the reversed output so far). -/
def normLoop : List String → List String → List String → List String
  | [], _, out => out.reverse
  | it :: rest, seen, out =>
    let s := pyStrip it
    if s = "" then normLoop rest seen out
    else
      let key := pyLower s
      if seen.contains key then normLoop rest seen out
      else normLoop rest (key :: seen) (s :: out)

/-- `_normalize_items`: unique, stripped, order-preserving (items are
already strings here; the Python `None` skip is vacuous). -/
def normalize_items (items : List String) : List String :=
  normLoop items [] []

/-! ### `calculate_match_score` -/

/-- An element of an iterable passed to `calculate_match_score`:
`hasName` records whether the Python object has a `name` attribute,
`nameStr` is `str(item.name)` and `selfStr` is `str(item)`. -/
structure Item where
  hasName : Bool
  nameStr : String
  selfStr : String
deriving DecidableEq

/-- The per-item conversion inside `to_names`:
`str(it.name)` when the item has a `name` attribute, else `str(it)`. -/
def itemToStr (it : Item) : String :=
  if it.hasName then it.nameStr else it.selfStr

/-- The four shapes an argument of `calculate_match_score` can take:
`None`, a string, an iterable of items, or a non-iterable non-string
object (whose iteration raises `TypeError`). -/
inductive ScoreInput where
  | noneArg : ScoreInput
  | strArg (s : String) : ScoreInput
  | iterArg (xs : List Item) : ScoreInput
  | nonIterable : ScoreInput

/-- `to_names` inside `calculate_match_score`: `None ↦ []`; a string is
split on `,` and `;`, parts stripped, empties dropped; an iterable maps
each item through `itemToStr`; iterating a non-iterable raises
`TypeError`, caught and turned into `[]`. -/
def to_names : ScoreInput → List String
  | ScoreInput.noneArg => []
  | ScoreInput.strArg s =>
    ((splitOnPred (fun c => c == ',' || c == ';') s.data []).map
      (fun cs => pyStrip (String.mk cs))).filter (fun p => p != "")
  | ScoreInput.iterArg xs => xs.map itemToStr
  | ScoreInput.nonIterable => []

/-- Round-half-even applied to the fraction `a / b` (with `b > 0`):
`f` is the floor, `r` the remainder, and the fractional part `r / b` is
compared with `1 / 2` by comparing `2 * r` with `b`.  This is Python
`round` on the exact value, written with integer arithmetic so that the
kernel can evaluate it. -/
def roundHalfEvenFrac (a : ℤ) (b : ℕ) : ℤ :=
  let f := a.fdiv b
  let r := a - f * b
  if 2 * r < (b : ℤ) then f
  else if (b : ℤ) < 2 * r then f + 1
  else if f % 2 = 0 then f else f + 1

/-- Python `round(x, 2)` on the exact value: round half-even at two
decimals.  `100 * x = (100 * x.num) / x.den` exactly, and `Rat.divInt`
is exact division of integers as a rational. -/
def round2 (q : ℚ) : ℚ :=
  Rat.divInt (roundHalfEvenFrac (100 * q.num) q.den) 100

/-- Round-half-even of a rational, stated abstractly with `⌊·⌋`; the
specification-side counterpart of `roundHalfEvenFrac`. -/
def rheQ (x : ℚ) : ℤ :=
  if x - ⌊x⌋ < 1 / 2 then ⌊x⌋
  else if 1 / 2 < x - ⌊x⌋ then ⌊x⌋ + 1
  else if ⌊x⌋ % 2 = 0 then ⌊x⌋ else ⌊x⌋ + 1

/-- `calculate_match_score`: normalize both arguments, return `0.0` for
an empty requirement list, else the fraction of lowercased requirement
skills present among the lowercased resume skills (Python
`len(overlap) / len(job_set)`, exact division, modelled by
`Rat.divInt`), rounded to two decimals. -/
def calculate_match_score (resume_skills job_requirements : ScoreInput) : ℚ :=
  let resume_list := normalize_items (to_names resume_skills)
  let job_list := normalize_items (to_names job_requirements)
  if job_list = [] then 0
  else
    let resume_set := (resume_list.map pyLower).toFinset
    let job_set := (job_list.map pyLower).toFinset
    let overlap := resume_set ∩ job_set
    round2 (Rat.divInt (overlap.card : ℤ) (job_set.card : ℤ))

/-- A plain string element of an iterable (no `name` attribute,
`str(it)` is the string itself). -/
def plainItem (s : String) : Item :=
  ⟨false, "", s⟩

/-- A list of plain strings as a scorer argument. -/
def ofStrings (xs : List String) : ScoreInput :=
  ScoreInput.iterArg (xs.map plainItem)

/-- The spec's normalized skill set of a scorer argument: trim, drop
empties, lowercase, collect into a set. -/
def specNormSet (x : ScoreInput) : Finset String :=
  (((to_names x).filter (fun s => pyStrip s != "")).map
    (fun s => pyLower (pyStrip s))).toFinset

/-! ### Text extraction (`_read_file_text`, `extract_text_from_resume`)

The filesystem and the optional third-party libraries are modelled as an
environment: a library call either returns its payload or raises
(`Except.error`).  `pdfplumber` yields a list of per-page
`page.extract_text()` results (`none` for a page with no text);
`python-docx` yields the list of paragraph texts. -/

/-- The environment a text-extraction call runs in: which optional
libraries are importable, and what each library/filesystem call does. -/
structure ExtractEnv where
  hasPdfplumber : Bool
  hasDocx : Bool
  pdfPagesPath : String → Except String (List (Option String))
  pdfPagesBytes : List Nat → Except String (List (Option String))
  docxParasPath : String → Except String (List String)
  docxParasBytes : List Nat → Except String (List String)
  openText : String → Except String String
  decodeUtf8Ignore : List Nat → String

/-- What `uploaded.read()` returns: raw bytes or an already-decoded
string (a text-mode file object). -/
inductive FileContent where
  | bytes (bs : List Nat) : FileContent
  | str (s : String) : FileContent

/-- The argument of `_read_file_text`: a path string, or a file-like
object with an optional `name` attribute and its content. -/
inductive FileSource where
  | path (p : String) : FileSource
  | fileLike (name : Option String) (content : FileContent) : FileSource

/-- `getattr(file_path_or_file, "name", None)`: a Python `str` has no
`name` attribute. -/
def nameAttr : FileSource → Option String
  | FileSource.path _ => none
  | FileSource.fileLike n _ => n

/-- `name.split(".")[-1]`: the last dot-separated component (the whole
name when it contains no dot). -/
def lastDotComp (n : String) : String :=
  String.mk ((splitOnPred (fun c => c == '.') n.data []).getLastD n.data)

/-- The extension-detection block at the top of `_read_file_text`:
a provided `ext` wins; otherwise a non-empty `name` attribute
contributes its lowercased last dot-component. -/
def extTop (src : FileSource) (ext0 : Option String) : Option String :=
  match ext0 with
  | some e => some e
  | none =>
    match nameAttr src with
    | some n => if n ≠ "" then some (pyLower (lastDotComp n)) else none
    | none => none

/-- The byte prefix `b"%PDF"`. -/
def pdfMagic : List Nat := [37, 80, 68, 70]

/-- The byte prefix `b"PK"` (ZIP local-file header, DOCX container). -/
def pkMagic : List Nat := [80, 75]

/-- Warning emitted when the PDF library is missing. -/
def pdfplumberWarn : String := "pdfplumber not installed; cannot extract text from PDF."

/-- Warning emitted when the DOCX library is missing. -/
def docxWarn : String := "python-docx not installed; cannot extract text from DOCX."

/-- Page-by-page accumulation: `text += page_text + "\n"` for each page
whose `extract_text()` is truthy (`None` and the empty string are both
skipped). -/
def pagesText (pages : List (Option String)) : String :=
  pages.foldl (fun acc p => match p with
    | some t => if t = "" then acc else acc ++ t ++ "\n"
    | none => acc) ""

/-- `"\n".join(paragraphs)`. -/
def joinNl (paras : List String) : String :=
  String.intercalate "\n" paras

/-- `_read_file_text`: obtain text from a path or a file-like object.
Returns `(text, warnings)` or an uncaught exception (`Except.error`). -/
def read_file_text (env : ExtractEnv) (src : FileSource) (ext0 : Option String) :
    Except String (String × List String) :=
  let ext := extTop src ext0
  match src with
  | FileSource.path p =>
    if ext = some "pdf" ∨ (ext = none ∧ pyEndsWith (pyLower p) ".pdf") then
      if env.hasPdfplumber = false then Except.ok ("", [pdfplumberWarn])
      else
        match env.pdfPagesPath p with
        | Except.error e => Except.error e
        | Except.ok pages => Except.ok (pagesText pages, [])
    else if ext = some "doc" ∨ ext = some "docx" ∨
        (ext = none ∧ (pyEndsWith (pyLower p) ".doc" ∨ pyEndsWith (pyLower p) ".docx")) then
      if env.hasDocx = false then Except.ok ("", [docxWarn])
      else
        match env.docxParasPath p with
        | Except.error e => Except.error e
        | Except.ok paras => Except.ok (joinNl paras, [])
    else
      match env.openText p with
      | Except.ok t => Except.ok (t, [])
      | Except.error _ => Except.ok ("", [])
  | FileSource.fileLike name? content =>
    let name := name?.getD ""
    let guessed : Option String :=
      match ext with
      | some e => some e
      | none =>
        if name ≠ "" ∧ name.data.contains '.' then some (pyLower (lastDotComp name))
        else none
    match content with
    | FileContent.bytes bs =>
      if guessed = some "pdf" ∨ (guessed = none ∧ bs.take 4 = pdfMagic) then
        if env.hasPdfplumber = false then Except.ok ("", [pdfplumberWarn])
        else
          match env.pdfPagesBytes bs with
          | Except.error e => Except.error e
          | Except.ok pages => Except.ok (pagesText pages, [])
      else if guessed = some "doc" ∨ guessed = some "docx" ∨
          (guessed = none ∧ bs.take 2 = pkMagic) then
        if env.hasDocx = false then Except.ok ("", [docxWarn])
        else
          match env.docxParasBytes bs with
          | Except.error e => Except.error e
          | Except.ok paras => Except.ok (joinNl paras, [])
      else Except.ok (env.decodeUtf8Ignore bs, [])
    | FileContent.str s => Except.ok (s, [])

/-- `extract_text_from_resume`: wrap `_read_file_text` in
`try/except`, degrading any exception to `""` plus a warning.
(`_read_file_text(...) or ""` is the identity on strings since the only
falsy string is `""` itself.) -/
def extract_text_from_resume (env : ExtractEnv) (src : FileSource) (ext : Option String) :
    String × List String :=
  match read_file_text env src ext with
  | Except.ok (t, w) => (t, w)
  | Except.error e => ("", ["Error extracting text from resume: " ++ e])

/-! ### `extract_experience` -/

/-- Python `\b\d{4}\b` holding at offset `i` of the character list:
four digits with a non-word character (or the string edge) on both
sides. -/
def digits4At (cs : List Char) (i : Nat) : Bool :=
  match cs.drop i with
  | a :: b :: c :: d :: rest =>
    digitChar a && digitChar b && digitChar c && digitChar d &&
      (decide (i = 0) || !(wordChar (cs.getD (i - 1) ' '))) &&
      (match rest with | [] => true | e :: _ => !(wordChar e))
  | _ => false

/-- `re.search(r"\b\d{4}\b", s)` is truthy. -/
def hasYear4 (s : String) : Bool :=
  (List.range s.data.length).any (fun i => digits4At s.data i)

/-- Python `\b(19|20)\d{2}\b` holding at offset `i`. -/
def year1920At (cs : List Char) (i : Nat) : Bool :=
  match cs.drop i with
  | a :: b :: c :: d :: rest =>
    ((a == '1' && b == '9') || (a == '2' && b == '0')) && digitChar c && digitChar d &&
      (decide (i = 0) || !(wordChar (cs.getD (i - 1) ' '))) &&
      (match rest with | [] => true | e :: _ => !(wordChar e))
  | _ => false

/-- `re.search(r"\b(19|20)\d{2}\b", s)` is truthy. -/
def hasYear1920 (s : String) : Bool :=
  (List.range s.data.length).any (fun i => year1920At s.data i)

/-- The qualification test on the spaCy (sentence-segmenter) path:
`"experience" in lower or "worked at" in lower or
"responsible for" in lower or re.search(r"\b\d{4}\b", s)`. -/
def qualNlp (s : String) : Bool :=
  pyContains (pyLower s) "experience" || pyContains (pyLower s) "worked at" ||
    pyContains (pyLower s) "responsible for" || hasYear4 s

/-- The qualification test on the newline-splitting fallback path:
`"experience" in s.lower() or "worked at" in s.lower() or
re.search(r"\b(19|20)\d{2}\b", s)`. -/
def qualFb (s : String) : Bool :=
  pyContains (pyLower s) "experience" || pyContains (pyLower s) "worked at" ||
    hasYear1920 s

/-- The state machine behind `re.split(r"\n{1,}", text)`: `cur` holds
the reversed current piece, and `inSep` records whether we are inside a
run of newlines (so the next non-newline starts a fresh piece, and
running out of input mid-run yields a trailing empty piece). -/
def splitNlGo : List Char → List Char → Bool → List (List Char)
  | [], cur, false => [cur.reverse]
  | [], _, true => [[]]
  | c :: rest, cur, false =>
    if c = '\n' then cur.reverse :: splitNlGo rest [] true
    else splitNlGo rest (c :: cur) false
  | c :: rest, cur, true =>
    if c = '\n' then splitNlGo rest cur true
    else splitNlGo rest [c] false

/-- `re.split(r"\n{1,}", text)`: split at each maximal run of
newlines. -/
def splitNlRuns (cs : List Char) : List (List Char) :=
  splitNlGo cs [] false

/-- The spaCy-path loop of `extract_experience`: strip each sentence,
append it when it qualifies, and break once `len(results) >= limit`
(the check runs after the append). -/
def expScanNlp (limit : ℤ) : List String → List String → List String
  | [], acc => acc.reverse
  | sent :: rest, acc =>
    let s := pyStrip sent
    if qualNlp s then
      if ((s :: acc).length : ℤ) ≥ limit then (s :: acc).reverse
      else expScanNlp limit rest (s :: acc)
    else expScanNlp limit rest acc

/-- The fallback-path loop of `extract_experience`: strip each line,
skip empties, append qualifying lines, break once
`len(results) >= limit` (the check runs after the append). -/
def expScanFb (limit : ℤ) : List String → List String → List String
  | [], acc => acc.reverse
  | line :: rest, acc =>
    let s := pyStrip line
    if s = "" then expScanFb limit rest acc
    else if qualFb s then
      if ((s :: acc).length : ℤ) ≥ limit then (s :: acc).reverse
      else expScanFb limit rest (s :: acc)
    else expScanFb limit rest acc

/-- The optional sentence segmenter (`nlp`): `some seg` when the spaCy
model loaded, `none` otherwise. -/
structure NlpEnv where
  seg : Option (String → List String)

/-- `extract_experience`: empty text yields `[]`; with the segmenter,
scan its sentences with the spaCy-path test; otherwise split on newline
runs and scan with the fallback test. -/
def extract_experience (env : NlpEnv) (text : String) (limit : ℤ) : List String :=
  if text = "" then []
  else
    match env.seg with
    | some segf => expScanNlp limit (segf text) []
    | none => expScanFb limit ((splitNlRuns text.data).map String.mk) []

/-! ### `extract_skills` -/

/-- The character class `[a-zA-Z0-9\+\#\.\-]` of the fallback pattern. -/
def capTailChar (c : Char) : Bool :=
  digitChar c || (65 ≤ c.toNat && c.toNat ≤ 90) || (97 ≤ c.toNat && c.toNat ≤ 122) ||
    c == '+' || c == '#' || c == '.' || c == '-'

/-- `A`–`Z`. -/
def upperAZ (c : Char) : Bool :=
  65 ≤ c.toNat && c.toNat ≤ 90

/-- Is the character at offset `i` a word character (out of range counts
as non-word, as at a string edge)? -/
def wordAt (cs : List Char) (i : Nat) : Bool :=
  match cs.drop i with
  | c :: _ => wordChar c
  | [] => false

/-- One attempt of `\b[A-Z][a-zA-Z0-9\+\#\.\-]{2,}\b` at offset `i`:
word boundary, an uppercase letter, then the longest `k ≥ 2` tail
characters after which a word boundary holds (greedy with backtracking).
Returns the end offset of the match. -/
def capMatchAt (cs : List Char) (i : Nat) : Option Nat :=
  if (decide (i = 0) || !(wordAt cs (i - 1))) &&
      (match cs.drop i with | c :: _ => upperAZ c | [] => false) then
    let runLen := ((cs.drop (i + 1)).takeWhile capTailChar).length
    let ks := (List.range (runLen + 1)).filter
      (fun k => decide (2 ≤ k) && (wordAt cs (i + k) != wordAt cs (i + 1 + k)))
    match ks.getLast? with
    | some k => some (i + 1 + k)
    | none => none
  else none

/-- The scan of `re.findall`: try each offset left to right, emit each
match and continue at its end (non-overlapping).  `fuel` only bounds the
recursion; `cs.length + 1` steps always suffice since every step
advances. -/
def findallCapAux : Nat → List Char → Nat → List String
  | 0, _, _ => []
  | fuel + 1, cs, i =>
    if i < cs.length then
      match capMatchAt cs i with
      | some e => String.mk ((cs.drop i).take (e - i)) :: findallCapAux fuel cs e
      | none => findallCapAux fuel cs (i + 1)
    else []

/-- `re.findall(r"\b[A-Z][a-zA-Z0-9\+\#\.\-]{2,}\b", text)`. -/
def findallCap (cs : List Char) : List String :=
  findallCapAux (cs.length + 1) cs 0

/-- The built-in default vocabulary of `extract_skills`. -/
def defaultSkillsList : List String :=
  ["Python", "Java", "Excel", "Machine Learning", "Django", "React", "SQL",
   "Project Management", "Communication", "Leadership", "AWS", "Docker", "Kubernetes",
   "REST", "GraphQL", "TypeScript", "JavaScript", "HTML", "CSS"]

/-- `extract_skills`: empty text yields `[]`; a falsy (`None` or empty)
candidate list falls back to the default vocabulary; candidates are
matched by case-insensitive substring containment; if none match, the
capitalized-token fallback regex is scanned; the result is normalized
(strip, drop empties, case-insensitive first-occurrence dedup). -/
def extract_skills (text : String) (skills_list : Option (List String)) : List String :=
  if text = "" then []
  else
    let candidates :=
      match skills_list with
      | some l => if l = [] then defaultSkillsList else l
      | none => defaultSkillsList
    let text_lower := pyLower text
    let found := candidates.filter (fun skill => skill != "" && pyContains text_lower (pyLower skill))
    let found2 := if found = [] then found ++ normalize_items (findallCap text.data) else found
    normalize_items found2

/-! ### Rounding lemmas -/

theorem rheQ_ge_floor (x : ℚ) : ⌊x⌋ ≤ rheQ x := by
  unfold rheQ
  split_ifs <;> omega

theorem rheQ_le_floor_add_one (x : ℚ) : rheQ x ≤ ⌊x⌋ + 1 := by
  unfold rheQ
  split_ifs <;> omega

theorem rheQ_mono {x y : ℚ} (h : x ≤ y) : rheQ x ≤ rheQ y := by
  rcases lt_or_le ⌊x⌋ ⌊y⌋ with hf | hf
  · calc rheQ x ≤ ⌊x⌋ + 1 := rheQ_le_floor_add_one x
    _ ≤ ⌊y⌋ := by omega
    _ ≤ rheQ y := rheQ_ge_floor y
  · have hxy : ⌊x⌋ ≤ ⌊y⌋ := Int.floor_le_floor h
    have hf' : ⌊x⌋ = ⌊y⌋ := le_antisymm hxy hf
    unfold rheQ
    rw [← hf']
    split_ifs <;> first | omega | linarith

theorem roundHalfEvenFrac_eq_rheQ (a : ℤ) (b : ℕ) (hb : 0 < b) :
    roundHalfEvenFrac a b = rheQ ((a : ℚ) / (b : ℚ)) := by
  have hbz : ((b : ℚ)) ≠ 0 := by exact_mod_cast hb.ne'
  have hbq : (0 : ℚ) < (b : ℚ) := by exact_mod_cast hb
  have hfl : ⌊((a : ℚ) / (b : ℚ))⌋ = a.fdiv b := by
    rw [Rat.floor_intCast_div_natCast a b, Int.fdiv_eq_ediv a (by exact_mod_cast hb.le)]
  have hfrac : (a : ℚ) / (b : ℚ) - (a.fdiv b : ℚ) = ((a - a.fdiv b * b : ℤ) : ℚ) / (b : ℚ) := by
    push_cast
    field_simp
    ring
  have hlt : ((a - a.fdiv b * b : ℤ) : ℚ) / (b : ℚ) < 1 / 2 ↔ 2 * (a - a.fdiv b * b) < (b : ℤ) := by
    rw [div_lt_div_iff hbq (by norm_num : (0:ℚ) < 2), one_mul,
      show ((a - a.fdiv b * b : ℤ) : ℚ) * 2 = ((2 * (a - a.fdiv b * b) : ℤ) : ℚ) by push_cast; ring]
    exact_mod_cast Iff.rfl
  have hgt : (1 : ℚ) / 2 < ((a - a.fdiv b * b : ℤ) : ℚ) / (b : ℚ) ↔ (b : ℤ) < 2 * (a - a.fdiv b * b) := by
    rw [div_lt_div_iff (by norm_num : (0:ℚ) < 2) hbq, one_mul,
      show ((a - a.fdiv b * b : ℤ) : ℚ) * 2 = ((2 * (a - a.fdiv b * b) : ℤ) : ℚ) by push_cast; ring]
    exact_mod_cast Iff.rfl
  unfold roundHalfEvenFrac rheQ
  rw [hfl, hfrac]
  simp only [hlt, hgt]

theorem round2_eq_rheQ (q : ℚ) : round2 q = (rheQ (q * 100) : ℚ) / 100 := by
  have h1 : ((100 * q.num : ℤ) : ℚ) / ((q.den : ℕ) : ℚ) = q * 100 := by
    push_cast
    rw [mul_div_assoc, Rat.num_div_den, mul_comm]
  unfold round2
  rw [roundHalfEvenFrac_eq_rheQ (100 * q.num) q.den q.den_pos, h1,
    Rat.divInt_eq_div]
  norm_num

/-! ### Character and string lemmas -/

theorem char_toNat_ofNat {n : ℕ} (h : n < 55296) : (Char.ofNat n).toNat = n := by
  have hv : n.isValidChar := Or.inl h
  rw [Char.ofNat, dif_pos hv]
  rfl

theorem char_toNat_inj {a b : Char} (h : a.toNat = b.toNat) : a = b := by
  have h2 := congrArg Char.ofNat h
  rwa [Char.ofNat_toNat, Char.ofNat_toNat] at h2

theorem toNat_lowerChar (c : Char) :
    (lowerChar c).toNat = if 65 ≤ c.toNat ∧ c.toNat ≤ 90 then c.toNat + 32 else c.toNat := by
  unfold lowerChar
  split_ifs with h
  · exact char_toNat_ofNat (by omega)
  · rfl

theorem toNat_upperChar (c : Char) :
    (upperChar c).toNat = if 97 ≤ c.toNat ∧ c.toNat ≤ 122 then c.toNat - 32 else c.toNat := by
  unfold upperChar
  split_ifs with h
  · exact char_toNat_ofNat (by omega)
  · rfl

theorem spaceChar_lowerChar (c : Char) : spaceChar (lowerChar c) = spaceChar c := by
  unfold spaceChar
  rw [toNat_lowerChar c]
  split_ifs with h
  · refine Bool.eq_iff_iff.mpr ?_
    simp only [Bool.or_eq_true, beq_iff_eq]
    omega
  · rfl

theorem spaceChar_upperChar (c : Char) : spaceChar (upperChar c) = spaceChar c := by
  unfold spaceChar
  rw [toNat_upperChar c]
  split_ifs with h
  · refine Bool.eq_iff_iff.mpr ?_
    simp only [Bool.or_eq_true, beq_iff_eq]
    omega
  · rfl

theorem lowerChar_lowerChar (c : Char) : lowerChar (lowerChar c) = lowerChar c := by
  apply char_toNat_inj
  simp only [toNat_lowerChar]
  split_ifs <;> omega

theorem lowerChar_upperChar (c : Char) : lowerChar (upperChar c) = lowerChar c := by
  apply char_toNat_inj
  simp only [toNat_lowerChar, toNat_upperChar]
  split_ifs <;> omega

theorem strip_map_comm (f : Char → Char) (hf : ∀ c, spaceChar (f c) = spaceChar c)
    (l : List Char) :
    (((l.map f).dropWhile spaceChar).reverse.dropWhile spaceChar).reverse =
      ((((l.dropWhile spaceChar).reverse.dropWhile spaceChar).reverse).map f) := by
  have hcomp : spaceChar ∘ f = spaceChar := funext hf
  rw [List.dropWhile_map, hcomp, ← List.map_reverse, List.dropWhile_map, hcomp,
    ← List.map_reverse]

theorem pyStrip_pyLower (s : String) : pyStrip (pyLower s) = pyLower (pyStrip s) :=
  congrArg String.mk (strip_map_comm lowerChar spaceChar_lowerChar s.data)

theorem pyStrip_pyUpper (s : String) : pyStrip (pyUpper s) = pyUpper (pyStrip s) :=
  congrArg String.mk (strip_map_comm upperChar spaceChar_upperChar s.data)

theorem pyLower_pyUpper (s : String) : pyLower (pyUpper s) = pyLower s :=
  congrArg String.mk (by
    rw [show (pyUpper s).data = s.data.map upperChar from rfl, List.map_map]
    exact List.map_congr_left (fun c _ => lowerChar_upperChar c))

theorem pyLower_pyLower (s : String) : pyLower (pyLower s) = pyLower s :=
  congrArg String.mk (by
    rw [show (pyLower s).data = s.data.map lowerChar from rfl, List.map_map]
    exact List.map_congr_left (fun c _ => lowerChar_lowerChar c))

theorem string_eq_empty_iff (s : String) : s = "" ↔ s.data = [] := by
  cases s with
  | mk d =>
    constructor
    · intro h
      have h2 : ({ data := d } : String).data = ("" : String).data := congrArg String.data h
      simpa using h2
    · intro h
      have h' : d = [] := h
      subst h'
      rfl

theorem pyLower_eq_empty (s : String) : pyLower s = "" ↔ s = "" := by
  rw [string_eq_empty_iff, string_eq_empty_iff]
  rw [show (pyLower s).data = s.data.map lowerChar from rfl]
  exact List.map_eq_nil

theorem pyUpper_eq_empty (s : String) : pyUpper s = "" ↔ s = "" := by
  rw [string_eq_empty_iff, string_eq_empty_iff]
  rw [show (pyUpper s).data = s.data.map upperChar from rfl]
  exact List.map_eq_nil

/-! ### Normalization lemmas -/

theorem mem_normLoop_lower (l : List String) (seen out : List String) (k : String) :
    k ∈ (normLoop l seen out).map pyLower ↔
      k ∈ out.map pyLower ∨
        (k ∉ seen ∧ ∃ s ∈ l, pyStrip s ≠ "" ∧ pyLower (pyStrip s) = k) := by
  induction l generalizing seen out with
  | nil =>
    simp [normLoop]
  | cons it rest ih =>
    by_cases hs : pyStrip it = ""
    · rw [show normLoop (it :: rest) seen out = normLoop rest seen out by
        simp [normLoop, hs]]
      rw [ih]
      constructor
      · rintro (h | ⟨hk, s, hsmem, hne, hkey⟩)
        · exact Or.inl h
        · exact Or.inr ⟨hk, s, List.mem_cons_of_mem _ hsmem, hne, hkey⟩
      · rintro (h | ⟨hk, s, hsmem, hne, hkey⟩)
        · exact Or.inl h
        · rcases List.mem_cons.mp hsmem with rfl | hsmem'
          · exact absurd hs hne
          · exact Or.inr ⟨hk, s, hsmem', hne, hkey⟩
    · by_cases hseen : pyLower (pyStrip it) ∈ seen
      · rw [show normLoop (it :: rest) seen out = normLoop rest seen out by
          simp [normLoop, hs, hseen]]
        rw [ih]
        have hmem : pyLower (pyStrip it) ∈ seen := hseen
        constructor
        · rintro (h | ⟨hk, s, hsmem, hne, hkey⟩)
          · exact Or.inl h
          · exact Or.inr ⟨hk, s, List.mem_cons_of_mem _ hsmem, hne, hkey⟩
        · rintro (h | ⟨hk, s, hsmem, hne, hkey⟩)
          · exact Or.inl h
          · rcases List.mem_cons.mp hsmem with rfl | hsmem'
            · exact absurd (hkey ▸ hmem) hk
            · exact Or.inr ⟨hk, s, hsmem', hne, hkey⟩
      · rw [show normLoop (it :: rest) seen out =
            normLoop rest (pyLower (pyStrip it) :: seen) (pyStrip it :: out) by
          simp [normLoop, hs, hseen]]
        rw [ih]
        have hnotseen : pyLower (pyStrip it) ∉ seen := hseen
        by_cases hk0 : k = pyLower (pyStrip it)
        · subst hk0
          constructor
          · intro _
            exact Or.inr ⟨hnotseen, it, List.mem_cons_self _ _, hs, rfl⟩
          · intro _
            exact Or.inl (by simp)
        · constructor
          · rintro (h | ⟨hk, s, hsmem, hne, hkey⟩)
            · rcases List.mem_map.mp h with ⟨t, htmem, hteq⟩
              rcases List.mem_cons.mp htmem with rfl | ht'
              · exact absurd hteq.symm hk0
              · exact Or.inl (List.mem_map.mpr ⟨t, ht', hteq⟩)
            · refine Or.inr ⟨fun hx => hk (List.mem_cons_of_mem _ hx), s,
                List.mem_cons_of_mem _ hsmem, hne, hkey⟩
          · rintro (h | ⟨hk, s, hsmem, hne, hkey⟩)
            · exact Or.inl (List.mem_map.mpr
                (by rcases List.mem_map.mp h with ⟨t, ht, hteq⟩
                    exact ⟨t, List.mem_cons_of_mem _ ht, hteq⟩))
            · rcases List.mem_cons.mp hsmem with rfl | hsmem'
              · exact absurd hkey.symm hk0
              · exact Or.inr ⟨by
                  intro hx
                  rcases List.mem_cons.mp hx with h1 | h2
                  · exact hk0 h1
                  · exact hk h2, s, hsmem', hne, hkey⟩

theorem mem_lower_normalize (l : List String) (k : String) :
    k ∈ (normalize_items l).map pyLower ↔
      ∃ s ∈ l, pyStrip s ≠ "" ∧ pyLower (pyStrip s) = k := by
  unfold normalize_items
  simpa using mem_normLoop_lower l [] [] k

theorem lowerFinset_normalize (l : List String) :
    ((normalize_items l).map pyLower).toFinset =
      ((l.filter (fun s => pyStrip s != "")).map (fun s => pyLower (pyStrip s))).toFinset := by
  ext k
  rw [List.mem_toFinset, List.mem_toFinset, mem_lower_normalize]
  constructor
  · rintro ⟨s, hmem, hne, hkey⟩
    exact List.mem_map.mpr ⟨s, List.mem_filter.mpr ⟨hmem, by simpa [bne_iff_ne] using hne⟩, hkey⟩
  · intro h
    rcases List.mem_map.mp h with ⟨s, hsf, hkey⟩
    rcases List.mem_filter.mp hsf with ⟨hmem, hne⟩
    exact ⟨s, hmem, by simpa [bne_iff_ne] using hne, hkey⟩

theorem specNormSet_eq (x : ScoreInput) :
    ((normalize_items (to_names x)).map pyLower).toFinset = specNormSet x :=
  lowerFinset_normalize (to_names x)

theorem normalize_nil_iff (x : ScoreInput) :
    normalize_items (to_names x) = [] ↔ specNormSet x = ∅ := by
  constructor
  · intro h
    rw [← specNormSet_eq, h]
    simp
  · intro h
    rw [← specNormSet_eq] at h
    exact List.map_eq_nil.mp (List.toFinset_eq_empty_iff _ |>.mp h)

/-- The scorer depends only on the two normalized lowercased skill
sets: `calculate_match_score` written with `specNormSet`. -/
theorem score_spec (r j : ScoreInput) :
    calculate_match_score r j =
      if specNormSet j = ∅ then 0
      else round2 (Rat.divInt ((specNormSet r ∩ specNormSet j).card : ℤ)
        ((specNormSet j).card : ℤ)) := by
  by_cases hj : normalize_items (to_names j) = []
  · rw [calculate_match_score, if_pos hj, if_pos ((normalize_nil_iff j).mp hj)]
  · rw [calculate_match_score, if_neg hj,
      if_neg (fun h => hj ((normalize_nil_iff j).mpr h))]
    rw [specNormSet_eq, specNormSet_eq]

theorem round2_mono {x y : ℚ} (h : x ≤ y) : round2 x ≤ round2 y := by
  rw [round2_eq_rheQ, round2_eq_rheQ]
  have := rheQ_mono (mul_le_mul_of_nonneg_right h (by norm_num : (0:ℚ) ≤ 100))
  have hcast : ((rheQ (x * 100) : ℤ) : ℚ) ≤ ((rheQ (y * 100) : ℤ) : ℚ) := by exact_mod_cast this
  exact (div_le_div_right (by norm_num : (0:ℚ) < 100)).mpr hcast

theorem to_names_ofStrings (xs : List String) : to_names (ofStrings xs) = xs := by
  simp only [to_names, ofStrings, List.map_map]
  rw [show itemToStr ∘ plainItem = id by funext s; rfl, List.map_id]

theorem mem_specNormSet (x : ScoreInput) (k : String) :
    k ∈ specNormSet x ↔ ∃ s ∈ to_names x, pyStrip s ≠ "" ∧ pyLower (pyStrip s) = k := by
  unfold specNormSet
  rw [List.mem_toFinset]
  constructor
  · intro h
    rcases List.mem_map.mp h with ⟨s, hsf, hkey⟩
    rcases List.mem_filter.mp hsf with ⟨hmem, hne⟩
    exact ⟨s, hmem, by simpa [bne_iff_ne] using hne, hkey⟩
  · rintro ⟨s, hmem, hne, hkey⟩
    exact List.mem_map.mpr ⟨s, List.mem_filter.mpr ⟨hmem, by simpa [bne_iff_ne] using hne⟩, hkey⟩

theorem specNormSet_perm {xs ys : List String} (h : xs.Perm ys) :
    specNormSet (ofStrings xs) = specNormSet (ofStrings ys) := by
  ext k
  rw [mem_specNormSet, mem_specNormSet, to_names_ofStrings, to_names_ofStrings]
  constructor <;> rintro ⟨s, hmem, hne, hkey⟩
  · exact ⟨s, h.mem_iff.mp hmem, hne, hkey⟩
  · exact ⟨s, h.mem_iff.mpr hmem, hne, hkey⟩

theorem specNormSet_map (f : String → String)
    (hkey : ∀ s, pyLower (pyStrip (f s)) = pyLower (pyStrip s))
    (hemp : ∀ s, pyStrip (f s) = "" ↔ pyStrip s = "") (xs : List String) :
    specNormSet (ofStrings (xs.map f)) = specNormSet (ofStrings xs) := by
  ext k
  rw [mem_specNormSet, mem_specNormSet, to_names_ofStrings, to_names_ofStrings]
  constructor
  · rintro ⟨s, hmem, hne, hk⟩
    rcases List.mem_map.mp hmem with ⟨t, htmem, rfl⟩
    exact ⟨t, htmem, fun h0 => hne ((hemp t).mpr h0), by rw [← hkey t]; exact hk⟩
  · rintro ⟨t, htmem, hne, hk⟩
    exact ⟨f t, List.mem_map.mpr ⟨t, htmem, rfl⟩, fun h0 => hne ((hemp t).mp h0),
      by rw [hkey t]; exact hk⟩

/-! ### Claims about the match scorer -/

/-- C1: for every pair of inputs whose normalized job-requirements set is
non-empty, `calculate_match_score` returns
`|resume_set ∩ job_set| / |job_set|` rounded to 2 decimal places, with
case-insensitive membership and resume-side duplicates counted once; in
particular `calculate_match_score(["Python","SQL"], ["Python","SQL","AWS"])`
is `0.67`. -/
theorem c1_score_formula :
    (∀ r j : ScoreInput, specNormSet j ≠ ∅ →
        calculate_match_score r j =
          round2 (((specNormSet r ∩ specNormSet j).card : ℚ) / ((specNormSet j).card : ℚ)))
    ∧ calculate_match_score (ofStrings ["Python", "SQL"]) (ofStrings ["Python", "SQL", "AWS"]) =
        67 / 100 := by
  constructor
  · intro r j h
    rw [score_spec, if_neg h]
    congr 1
    rw [Rat.divInt_eq_div]
    push_cast
    rfl
  · rw [show (67:ℚ)/100 = Rat.divInt 67 100 by rw [Rat.divInt_eq_div]; norm_num]
    decide

theorem c1_score_formula_witness :
    calculate_match_score (ofStrings ["A"]) (ofStrings ["A"]) =
      round2 (((specNormSet (ofStrings ["A"]) ∩ specNormSet (ofStrings ["A"])).card : ℚ) /
        ((specNormSet (ofStrings ["A"])).card : ℚ)) :=
  c1_score_formula.1 (ofStrings ["A"]) (ofStrings ["A"]) (by decide)

/-- C2: the score is exactly `0.0` whenever the normalized
job-requirements set is empty, and also when the normalized resume set
is empty against a non-empty job set; in particular
`calculate_match_score([], ["Python"]) == 0.0` and
`calculate_match_score(["Python"], []) == 0.0`, with no division by
zero. -/
theorem c2_empty_zero :
    (∀ r j : ScoreInput, specNormSet j = ∅ → calculate_match_score r j = 0)
    ∧ (∀ r j : ScoreInput, specNormSet r = ∅ → specNormSet j ≠ ∅ →
        calculate_match_score r j = 0)
    ∧ calculate_match_score (ofStrings []) (ofStrings ["Python"]) = 0
    ∧ calculate_match_score (ofStrings ["Python"]) (ofStrings []) = 0 := by
  refine ⟨?_, ?_, by decide, by decide⟩
  · intro r j h
    rw [score_spec, if_pos h]
  · intro r j hr hj
    rw [score_spec, if_neg hj, hr, Finset.empty_inter]
    rw [show ((∅ : Finset String).card : ℤ) = 0 by simp]
    rw [Rat.zero_divInt]
    decide

theorem c2_empty_zero_witness :
    calculate_match_score (ofStrings ["X"]) ScoreInput.noneArg = 0 ∧
    calculate_match_score (ofStrings []) (ofStrings ["Python"]) = 0 :=
  ⟨c2_empty_zero.1 (ofStrings ["X"]) ScoreInput.noneArg (by decide),
   c2_empty_zero.2.1 (ofStrings []) (ofStrings ["Python"]) (by decide) (by decide)⟩

/-- C8: the score is deterministic and invariant under permuting either
input and under uppercasing/lowercasing either input; in particular
`calculate_match_score(["python","PYTHON","Sql"], ["Python","SQL"]) == 1.0`. -/
theorem c8_invariance :
    (∀ (r r' : List String) (j : ScoreInput), r.Perm r' →
        calculate_match_score (ofStrings r) j = calculate_match_score (ofStrings r') j)
    ∧ (∀ (j j' : List String) (r : ScoreInput), j.Perm j' →
        calculate_match_score r (ofStrings j) = calculate_match_score r (ofStrings j'))
    ∧ (∀ (r : List String) (j : ScoreInput),
        calculate_match_score (ofStrings (r.map pyUpper)) j =
            calculate_match_score (ofStrings r) j
        ∧ calculate_match_score (ofStrings (r.map pyLower)) j =
            calculate_match_score (ofStrings r) j)
    ∧ (∀ (j : List String) (r : ScoreInput),
        calculate_match_score r (ofStrings (j.map pyUpper)) =
            calculate_match_score r (ofStrings j)
        ∧ calculate_match_score r (ofStrings (j.map pyLower)) =
            calculate_match_score r (ofStrings j))
    ∧ calculate_match_score (ofStrings ["python", "PYTHON", "Sql"])
        (ofStrings ["Python", "SQL"]) = 1 := by
  have hupper := specNormSet_map pyUpper
    (fun s => by rw [pyStrip_pyUpper, pyLower_pyUpper])
    (fun s => by rw [pyStrip_pyUpper, pyUpper_eq_empty])
  have hlower := specNormSet_map pyLower
    (fun s => by rw [pyStrip_pyLower, pyLower_pyLower])
    (fun s => by rw [pyStrip_pyLower, pyLower_eq_empty])
  refine ⟨?_, ?_, ?_, ?_, by decide⟩
  · intro r r' j h
    rw [score_spec, score_spec, specNormSet_perm h]
  · intro j j' r h
    rw [score_spec, score_spec, specNormSet_perm h]
  · intro r j
    exact ⟨by rw [score_spec, score_spec, hupper r],
      by rw [score_spec, score_spec, hlower r]⟩
  · intro j r
    exact ⟨by rw [score_spec, score_spec, hupper j],
      by rw [score_spec, score_spec, hlower j]⟩

theorem c8_invariance_witness :
    calculate_match_score (ofStrings ["SQL", "Python"]) (ofStrings ["Python"]) =
      calculate_match_score (ofStrings ["Python", "SQL"]) (ofStrings ["Python"]) :=
  c8_invariance.1 ["SQL", "Python"] ["Python", "SQL"] (ofStrings ["Python"]) (by decide)

/-- C9: scorer input normalization: a string is split on commas and
semicolons with parts trimmed and empties dropped; iterable items with a
`name` attribute contribute `str(item.name)`, others `str(item)`; a
wholly non-iterable non-string input normalizes to the empty set, so a
non-iterable job-requirements argument scores `0.0`. -/
theorem c9_input_normalization :
    (∀ s : String, to_names (ScoreInput.strArg s) =
        ((splitOnPred (fun c => c == ',' || c == ';') s.data []).map
          (fun cs => pyStrip (String.mk cs))).filter (fun p => p != ""))
    ∧ to_names (ScoreInput.strArg "Python, SQL;;  AWS  ,") = ["Python", "SQL", "AWS"]
    ∧ (∀ xs : List Item, to_names (ScoreInput.iterArg xs) = xs.map itemToStr)
    ∧ (∀ n sf : String, itemToStr ⟨true, n, sf⟩ = n ∧ itemToStr ⟨false, n, sf⟩ = sf)
    ∧ to_names ScoreInput.nonIterable = []
    ∧ specNormSet ScoreInput.nonIterable = ∅
    ∧ (∀ r : ScoreInput, calculate_match_score r ScoreInput.nonIterable = 0) :=
  ⟨fun _ => rfl, by decide, fun _ => rfl, fun _ _ => ⟨rfl, rfl⟩, rfl, rfl, fun _ => rfl⟩

/-- C10: the score is monotone in the resume side: extending the resume
skill list can only raise the score against a fixed job input. -/
theorem c10_resume_monotone (j : ScoreInput) (R R' : List String)
    (h : ∀ s ∈ R, s ∈ R') :
    calculate_match_score (ofStrings R) j ≤ calculate_match_score (ofStrings R') j := by
  rw [score_spec, score_spec]
  by_cases hj : specNormSet j = ∅
  · rw [if_pos hj, if_pos hj]
  · rw [if_neg hj, if_neg hj]
    apply round2_mono
    have hsub : specNormSet (ofStrings R) ⊆ specNormSet (ofStrings R') := by
      intro k hk
      rw [mem_specNormSet, to_names_ofStrings] at hk ⊢
      rcases hk with ⟨s, hmem, hp⟩
      exact ⟨s, h s hmem, hp⟩
    have hcard : (specNormSet (ofStrings R) ∩ specNormSet j).card ≤
        (specNormSet (ofStrings R') ∩ specNormSet j).card :=
      Finset.card_le_card (Finset.inter_subset_inter hsub (Finset.Subset.refl _))
    rw [Rat.divInt_eq_div, Rat.divInt_eq_div]
    have hpos : (0:ℚ) < (((specNormSet j).card : ℤ) : ℚ) := by
      have h0 : 0 < (specNormSet j).card :=
        Finset.card_pos.mpr (Finset.nonempty_iff_ne_empty.mpr hj)
      exact_mod_cast h0
    exact (div_le_div_right hpos).mpr (by exact_mod_cast hcard)

theorem c10_resume_monotone_witness :
    calculate_match_score (ofStrings ["Python"]) (ofStrings ["Python", "SQL"]) ≤
      calculate_match_score (ofStrings ["Python", "SQL"]) (ofStrings ["Python", "SQL"]) :=
  c10_resume_monotone (ofStrings ["Python", "SQL"]) ["Python"] ["Python", "SQL"] (by decide)

/-! ### Claims about text extraction -/

/-- An environment without the optional libraries, in which the file at
path `"resume"` holds bytes beginning with `%PDF`, so its plain-text
read returns their decoded form. -/
def envTextOnly : ExtractEnv where
  hasPdfplumber := false
  hasDocx := false
  pdfPagesPath := fun _ => Except.error "pdfplumber absent"
  pdfPagesBytes := fun _ => Except.error "pdfplumber absent"
  docxParasPath := fun _ => Except.error "docx absent"
  docxParasBytes := fun _ => Except.error "docx absent"
  openText := fun p =>
    if p = "resume" then Except.ok "%PDF-1.4 stub content" else Except.error "missing"
  decodeUtf8Ignore := fun _ => ""

/-- An environment whose PDF library raises on every call. -/
def envBoom : ExtractEnv where
  hasPdfplumber := true
  hasDocx := true
  pdfPagesPath := fun _ => Except.error "boom"
  pdfPagesBytes := fun _ => Except.error "boom"
  docxParasPath := fun _ => Except.error "boom"
  docxParasBytes := fun _ => Except.error "boom"
  openText := fun _ => Except.error "missing"
  decodeUtf8Ignore := fun _ => ""

/-- C3: `extract_text_from_resume` never raises: whenever the inner
extraction raises, it returns `""` plus a warning; and a path ending in
`.pdf` (or an explicit `pdf` hint) with the PDF library unavailable
yields `""` with a warning, without raising. -/
theorem c3_never_raises :
    (∀ (env : ExtractEnv) (src : FileSource) (ext : Option String) (e : String),
        read_file_text env src ext = Except.error e →
        extract_text_from_resume env src ext =
          ("", ["Error extracting text from resume: " ++ e]))
    ∧ (∀ (env : ExtractEnv) (p : String) (ext : Option String),
        env.hasPdfplumber = false →
        (ext = some "pdf" ∨ (ext = none ∧ pyEndsWith (pyLower p) ".pdf" = true)) →
        extract_text_from_resume env (FileSource.path p) ext = ("", [pdfplumberWarn])) := by
  constructor
  · intro env src ext e h
    unfold extract_text_from_resume
    rw [h]
  · intro env p ext hlib hpdf
    have hread : read_file_text env (FileSource.path p) ext =
        Except.ok ("", [pdfplumberWarn]) := by
      have hext : extTop (FileSource.path p) ext = ext := by cases ext <;> rfl
      simp only [read_file_text, hext]
      rw [if_pos hpdf, hlib, if_pos rfl]
    unfold extract_text_from_resume
    rw [hread]

theorem c3_never_raises_witness :
    extract_text_from_resume envBoom (FileSource.path "cv.pdf") none =
      ("", ["Error extracting text from resume: boom"]) ∧
    extract_text_from_resume envTextOnly (FileSource.path "cv.pdf") none =
      ("", [pdfplumberWarn]) :=
  ⟨c3_never_raises.1 envBoom (FileSource.path "cv.pdf") none "boom" rfl,
   c3_never_raises.2 envTextOnly "cv.pdf" none rfl (Or.inr ⟨rfl, by decide⟩)⟩

/-- C4 counterexample: the claim says a source whose bytes start with
`%PDF`, with no extension hint and no filename suffix, goes through the
PDF branch "for path inputs as well as for byte-stream inputs".  For the
path `"resume"` (no suffix, no hint) whose file content starts with
`%PDF`, the PDF branch would return `""` with the pdfplumber warning
(the library being absent); the code instead opens the file as plain
text and returns its content: content sniffing never happens for path
inputs. -/
theorem c4_counterexample :
    extract_text_from_resume envTextOnly (FileSource.path "resume") none =
      ("%PDF-1.4 stub content", [])
    ∧ extract_text_from_resume envTextOnly (FileSource.path "resume") none ≠
      ("", [pdfplumberWarn]) := by
  exact ⟨by decide, by decide⟩

/-- C4 amended: for byte-stream inputs the effective extension is
resolved as explicit hint, then filename-derived extension (the last
dot-component; the whole name when it has no dot), then content sniffing
(`%PDF` prefix ⇒ pdf, `PK` prefix ⇒ docx), else plain-text decoding;
for path inputs resolution is explicit hint, then path suffix, and an
unknown extension falls through to a plain-text read with no content
sniffing. -/
theorem c4_amended :
    (∀ (env : ExtractEnv) (bs : List Nat), env.hasPdfplumber = false →
        bs.take 4 = pdfMagic →
        read_file_text env (FileSource.fileLike none (FileContent.bytes bs)) none =
          Except.ok ("", [pdfplumberWarn]))
    ∧ (∀ (env : ExtractEnv) (bs : List Nat), env.hasDocx = false →
        bs.take 2 = pkMagic →
        read_file_text env (FileSource.fileLike none (FileContent.bytes bs)) none =
          Except.ok ("", [docxWarn]))
    ∧ (∀ (env : ExtractEnv) (bs : List Nat),
        read_file_text env (FileSource.fileLike none (FileContent.bytes bs)) (some "txt") =
          Except.ok (env.decodeUtf8Ignore bs, []))
    ∧ (∀ (env : ExtractEnv) (bs : List Nat), env.hasDocx = false →
        read_file_text env (FileSource.fileLike (some "f.docx") (FileContent.bytes bs)) none =
          Except.ok ("", [docxWarn]))
    ∧ (∀ (env : ExtractEnv) (bs : List Nat), env.hasPdfplumber = false →
        read_file_text env (FileSource.fileLike (some "f.docx") (FileContent.bytes bs))
          (some "pdf") = Except.ok ("", [pdfplumberWarn]))
    ∧ (∀ (env : ExtractEnv) (p : String),
        pyEndsWith (pyLower p) ".pdf" = false →
        pyEndsWith (pyLower p) ".doc" = false →
        pyEndsWith (pyLower p) ".docx" = false →
        read_file_text env (FileSource.path p) none =
          (match env.openText p with
           | Except.ok t => Except.ok (t, [])
           | Except.error _ => Except.ok ("", []))) := by
  refine ⟨?_, ?_, ?_, ?_, ?_, ?_⟩
  · intro env bs hlib hbs
    simp [read_file_text, extTop, nameAttr, hbs, hlib]
  · intro env bs hlib hbs
    have hne : ¬ (bs.take 4 = pdfMagic) := by
      intro h4
      cases bs with
      | nil => simp [pkMagic] at hbs
      | cons a t =>
        simp [pdfMagic, List.take] at h4
        simp [pkMagic, List.take] at hbs
        omega
    simp [read_file_text, extTop, nameAttr, hbs, hlib, hne]
  · intro env bs
    rfl
  · intro env bs hlib
    show (if env.hasDocx = false then Except.ok ("", [docxWarn])
      else match env.docxParasBytes bs with
        | Except.error e => Except.error e
        | Except.ok paras => Except.ok (joinNl paras, [])) = Except.ok ("", [docxWarn])
    rw [hlib, if_pos rfl]
  · intro env bs hlib
    show (if env.hasPdfplumber = false then Except.ok ("", [pdfplumberWarn])
      else match env.pdfPagesBytes bs with
        | Except.error e => Except.error e
        | Except.ok pages => Except.ok (pagesText pages, [])) = Except.ok ("", [pdfplumberWarn])
    rw [hlib, if_pos rfl]
  · intro env p h1 h2 h3
    simp [read_file_text, extTop, nameAttr, h1, h2, h3]

theorem c4_amended_witness :
    read_file_text envTextOnly (FileSource.fileLike none (FileContent.bytes pdfMagic)) none =
      Except.ok ("", [pdfplumberWarn]) ∧
    read_file_text envTextOnly (FileSource.fileLike none (FileContent.bytes pkMagic)) none =
      Except.ok ("", [docxWarn]) ∧
    read_file_text envTextOnly (FileSource.path "notes") none = Except.ok ("", []) :=
  ⟨c4_amended.1 envTextOnly pdfMagic rfl (by decide),
   c4_amended.2.1 envTextOnly pkMagic rfl (by decide),
   by
     have h := c4_amended.2.2.2.2.2 envTextOnly "notes" (by decide) (by decide) (by decide)
     rw [h]
     rfl⟩

/-! ### Claims about entity extraction -/

theorem string_mk_data (s : String) : String.mk s.data = s := by
  cases s
  rfl

theorem splitNlGo_no_newline (cs cur : List Char) (h : ('\n' : Char) ∉ cs) :
    splitNlGo cs cur false = [cur.reverse ++ cs] := by
  induction cs generalizing cur with
  | nil => simp [splitNlGo]
  | cons c rest ih =>
    have hc : ¬ (c = '\n') := fun hh => h (hh ▸ List.mem_cons_self c rest)
    rw [show splitNlGo (c :: rest) cur false = splitNlGo rest (c :: cur) false by
      simp [splitNlGo, hc]]
    rw [ih (c :: cur) (fun hm => h (List.mem_cons_of_mem _ hm))]
    simp

theorem splitNlRuns_no_newline (cs : List Char) (h : ('\n' : Char) ∉ cs) :
    splitNlRuns cs = [cs] :=
  splitNlGo_no_newline cs [] h

/-- C5: code bug: the loop of `extract_experience` appends a qualifying
segment before checking `len(results) >= limit`, so `limit = 0` returns
one entry instead of none, contradicting the docstring
"Returns up to `limit` entries" — on both the segmenter path and the
fallback path. -/
theorem c5_limit_zero_bug :
    extract_experience ⟨none⟩ "experience" 0 = ["experience"]
    ∧ extract_experience ⟨some (fun t => [t])⟩ "experience" 0 = ["experience"] :=
  ⟨by decide, by decide⟩

/-- C6 counterexample: the claim says a segment containing `"role:"`
qualifies on both paths; `"Role: Senior Engineer"` is collected by
neither (the code never tests `"role:"` or `"position:"`). -/
theorem c6_counterexample :
    extract_experience ⟨none⟩ "Role: Senior Engineer" 5 = []
    ∧ extract_experience ⟨some (fun t => [t])⟩ "Role: Senior Engineer" 5 = [] :=
  ⟨by decide, by decide⟩

/-- C6 amended: on the segmenter path a segment qualifies exactly when
it contains (case-insensitively) "experience", "worked at" or
"responsible for", or any bare 4-digit token; on the newline-fallback
path exactly when it contains "experience" or "worked at" or a bare
4-digit token beginning 19 or 20.  Neither path tests "role:" or
"position:", and the predicates differ between the paths
("responsible for" and years outside 1900–2099 qualify only on the
segmenter path). -/
theorem c6_amended :
    (∀ s : String, pyStrip s = s → s ≠ "" → ('\n' : Char) ∉ s.data →
        extract_experience ⟨none⟩ s 5 = if qualFb s then [s] else [])
    ∧ (∀ s : String, pyStrip s = s → s ≠ "" →
        extract_experience ⟨some (fun t => [t])⟩ s 5 = if qualNlp s then [s] else [])
    ∧ qualNlp "Responsible for budgets" = true
    ∧ qualFb "Responsible for budgets" = false
    ∧ qualNlp "Joined in 3021" = true
    ∧ qualFb "Joined in 3021" = false
    ∧ qualFb "Role: engineer" = false
    ∧ qualNlp "Position: engineer" = false := by
  refine ⟨?_, ?_, by decide, by decide, by decide, by decide, by decide, by decide⟩
  · intro s hstrip hne hnl
    unfold extract_experience
    rw [if_neg hne]
    show expScanFb 5 ((splitNlRuns s.data).map String.mk) [] = _
    rw [splitNlRuns_no_newline s.data hnl]
    show expScanFb 5 [String.mk s.data] [] = _
    rw [string_mk_data]
    simp only [expScanFb, hstrip]
    rw [if_neg hne]
    by_cases hq : qualFb s = true
    · rw [if_pos hq, if_pos hq,
        if_neg (by norm_num : ¬ ((((s :: [] : List String)).length : ℤ) ≥ 5))]
      simp [expScanFb]
    · rw [if_neg hq, if_neg hq]
      simp [expScanFb]
  · intro s hstrip hne
    unfold extract_experience
    rw [if_neg hne]
    show expScanNlp 5 [s] [] = _
    simp only [expScanNlp, hstrip]
    by_cases hq : qualNlp s = true
    · rw [if_pos hq, if_pos hq,
        if_neg (by norm_num : ¬ ((((s :: [] : List String)).length : ℤ) ≥ 5))]
      simp [expScanNlp]
    · rw [if_neg hq, if_neg hq]
      simp [expScanNlp]

theorem c6_amended_witness :
    extract_experience ⟨none⟩ "worked at Initech" 5 =
      (if qualFb "worked at Initech" then ["worked at Initech"] else []) :=
  c6_amended.1 "worked at Initech" (by decide) (by decide) (by decide)

/-- C7 counterexample: the claim predicts that `extract_skills` returns
exactly the matching candidates; on `"Hello World"` with candidate list
`["Python"]` no candidate matches, the claim predicts `[]`, but the
capitalized-token fallback regex returns `["Hello", "World"]`. -/
theorem c7_counterexample :
    extract_skills "Hello World" (some ["Python"]) = ["Hello", "World"]
    ∧ extract_skills "Hello World" (some ["Python"]) ≠
      (["Python"].filter (fun c => pyContains (pyLower "Hello World") (pyLower c))) :=
  ⟨by decide, by decide⟩

/-- C7 amended: whenever at least one supplied candidate (non-empty, as
a case-insensitive substring) matches the text, `extract_skills` returns
exactly the matching candidates, in candidate order, trimmed, empties
dropped, deduplicated case-insensitively keeping the first occurrence's
casing; empty text yields `[]`; and the worked example holds.  (When no
candidate matches, a capitalized-token fallback scan supplies the result
instead, and an empty candidate list falls back to the default
vocabulary.) -/
theorem c7_amended :
    (∀ (text : String) (cands : List String), text ≠ "" →
        (∃ c ∈ cands, (c != "" && pyContains (pyLower text) (pyLower c)) = true) →
        extract_skills text (some cands) =
          normalize_items (cands.filter
            (fun c => c != "" && pyContains (pyLower text) (pyLower c))))
    ∧ (∀ cands : Option (List String), extract_skills "" cands = [])
    ∧ extract_skills "I have strong Python and AWS experience." (some ["Python", "AWS", "Java"]) =
        ["Python", "AWS"] := by
  refine ⟨?_, fun cands => rfl, by decide⟩
  intro text cands htext hex
  obtain ⟨c, hcmem, hcp⟩ := hex
  have hcne : ¬ (cands = []) := fun h => by
    subst h
    exact absurd hcmem (List.not_mem_nil c)
  have hfound : c ∈ cands.filter (fun c => c != "" && pyContains (pyLower text) (pyLower c)) :=
    List.mem_filter.mpr ⟨hcmem, hcp⟩
  have hfne : ¬ (cands.filter (fun c => c != "" && pyContains (pyLower text) (pyLower c)) = []) :=
    fun h => absurd (h ▸ hfound) (List.not_mem_nil c)
  simp only [extract_skills]
  rw [if_neg htext, if_neg hcne, if_neg hfne]

theorem c7_amended_witness :
    extract_skills "Python rocks" (some ["Python"]) =
      normalize_items (["Python"].filter
        (fun c => c != "" && pyContains (pyLower "Python rocks") (pyLower c))) :=
  c7_amended.1 "Python rocks" ["Python"] (by decide) (by decide)

end ResumeMatcher
